import Mathlib

/-!
Shallow embedding of `.github/scripts/generate_curated_list.cjs` from the
SingularityMM repository.  The file holds two variants of the script:

* the signal-based variant (first part of the file): one call to the
  `updated.json` endpoint yields a change-signal set; a classification loop
  decides reuse vs fetch per tracked mod, and only must-fetch mods go
  through the batch loop;
* the timestamp-based variant (second part): every tracked mod gets an
  info fetch, and the cached files/changelogs are reused only when the
  cached `updated_timestamp` matches the freshly fetched one.

Network effects are modelled by an explicit environment (`FetchEnv`)
mapping a mod id to the raw HTTP outcome of each endpoint; JavaScript
`try`/`catch` around a fetch is modelled by an `Except` valued try-body
whose error is then mapped to the `catch` branch result.  JS `undefined`
for a record field is modelled as `Option.none`.  The run additionally
produces a trace of outbound API calls and inter-batch delays, so that
batching/rate-limit properties can be stated.
-/

/-- Parsed body of the mod-info endpoint (`mods/{id}.json`).  Field names
follow the script's merge step. -/
structure ModInfo where
  mod_id : String
  name : String
  summary : String
  version : String
  picture_url : String
  author : String
  mod_downloads : Nat
  endorsement_count : Nat
  updated_timestamp : Nat
  created_timestamp : Nat
  description : String
deriving DecidableEq, Repr, Inhabited

/-- A changelog map, keyed by version (opaque to the script). -/
abbrev Changelogs := List (String × String)

/-- Parsed body of the files endpoint; the `files` key may be absent
(`none` models JS `undefined`). -/
structure FilesJson where
  files : Option (List String)
deriving DecidableEq, Repr, Inhabited

/-- A record of the curated catalog, both as cached input (read back from
the previous run's output) and as output.  `files`/`changelogs` are
`Option` because a cached record may lack either key; `state` and
`warningMessage` are `Option` because the overlay entry may lack them
(JS `undefined`). -/
structure StoredRecord where
  mod_id : String
  name : String
  summary : String
  version : String
  picture_url : String
  author : String
  mod_downloads : Nat
  endorsement_count : Nat
  updated_timestamp : Nat
  created_timestamp : Nat
  description : String
  state : Option String
  warningMessage : Option String
  files : Option (List String)
  changelogs : Option Changelogs
deriving DecidableEq, Repr, Inhabited

/-- An entry of the curation input `mod_warnings.json`: `id` may be
absent (`none`), and so may `state` / `warningMessage`. -/
structure RawEntry where
  id : Option String
  state : Option String
  warningMessage : Option String
deriving DecidableEq, Repr, Inhabited

/-- An HTTP response: a status code and an optional parsed body
(`none` models a body on which `response.json()` throws). -/
structure HttpResponse (β : Type) where
  status : Nat
  body : Option β
deriving DecidableEq, Repr

/-- Outcome of a `fetch` call: a network error (the promise rejects) or a
response. -/
inductive FetchResult (β : Type) where
  | netErr
  | resp (r : HttpResponse β)
deriving DecidableEq, Repr

/-- The upstream API, as a deterministic oracle keyed by the mod id used
in the request URL. -/
structure FetchEnv where
  info : String → FetchResult ModInfo
  files : String → FetchResult FilesJson
  changelogs : String → FetchResult Changelogs

/-- One observable step of the run: an outbound API call or an
inter-batch delay. -/
inductive ApiCall where
  | updatedList
  | info (id : String)
  | files (id : String)
  | changelogs (id : String)
  | interBatchDelay
deriving DecidableEq, Repr

/-- Why the classification loop queues a mod for fetching; `none` from
`classifyReasonId` means the cached record is reused. -/
inductive Reason where
  | new
  | updatedUpstream
  | missingData
deriving DecidableEq, Repr

/-- `response.ok`: status in the inclusive range 200..299. -/
def httpOk (s : Nat) : Bool := 200 ≤ s && s ≤ 299

/-- The `try` block of `fetchModDataFromNexus`: a 429 status throws
`RATE_LIMIT`, a non-ok status returns null, a malformed body makes
`response.json()` throw, otherwise the parsed body is returned. -/
def infoTryBody (res : FetchResult ModInfo) : Except String (Option ModInfo) :=
  match res with
  | .netErr => .error "network"
  | .resp r =>
    if r.status = 429 then .error "RATE_LIMIT"
    else if !httpOk r.status then .ok none
    else
      match r.body with
      | some b => .ok (some b)
      | none => .error "malformed"

/-- `fetchModDataFromNexus` (identical in both variants): the `catch`
block returns null for every error raised in the `try` block — including
the `RATE_LIMIT` error the function itself just threw on a 429. -/
def fetchModDataFromNexus (res : FetchResult ModInfo) : Option ModInfo :=
  match infoTryBody res with
  | .ok v => v
  | .error _ => none

/-- `fetchModFilesFromNexus`: non-ok status or any thrown error yields
the literal object with an empty files array. -/
def fetchModFilesFromNexus (res : FetchResult FilesJson) : FilesJson :=
  match res with
  | .netErr => { files := some [] }
  | .resp r =>
    if !httpOk r.status then { files := some [] }
    else
      match r.body with
      | some b => b
      | none => { files := some [] }

/-- `fetchModChangelogsFromNexus`: non-ok status or any thrown error
yields an empty object. -/
def fetchModChangelogsFromNexus (res : FetchResult Changelogs) : Changelogs :=
  match res with
  | .netErr => []
  | .resp r =>
    if !httpOk r.status then []
    else
      match r.body with
      | some b => b
      | none => []

/-- JS `String(x)` applied to the (possibly absent) `id` field:
`String(undefined)` is the literal string `"undefined"`. -/
def jsString : Option String → String
  | some s => s
  | none => "undefined"

/-- JS `String.prototype.trim()`: strip whitespace from both ends
(modelled directly on the character list so that it evaluates inside
the kernel). -/
def jsTrim (s : String) : String :=
  String.mk (((s.data.dropWhile Char.isWhitespace).reverse.dropWhile
    Char.isWhitespace).reverse)

/-- The filter `mod.id && String(mod.id).trim() !== ""` of the
signal-based variant: the id must be present, truthy (non-empty) and
non-blank after trimming. -/
def truthyId : Option String → Bool
  | none => false
  | some s => s != "" && jsTrim s != ""

/-- JS `Map` built from a list of key/value pairs: a later insertion for
the same key overwrites an earlier one, so lookup finds the last pair. -/
def jsMapFind (l : List (String × α)) (k : String) : Option α :=
  (l.reverse.find? (fun p => p.1 == k)).map (fun p => p.2)

/-- The expression `warningInfo ? warningInfo.state : 'normal'`. -/
def overlayState (w : Option RawEntry) : Option String :=
  match w with
  | some wi => wi.state
  | none => some "normal"

/-- The expression `warningInfo ? warningInfo.warningMessage : ''`. -/
def overlayWarning (w : Option RawEntry) : Option String :=
  match w with
  | some wi => wi.warningMessage
  | none => some ""

/-- The reuse branch `{...cachedMod, state: ..., warningMessage: ...}`:
spread the cached record and override the two curation fields from the
current overlay entry. -/
def reuseMerge (w : Option RawEntry) (c : StoredRecord) : StoredRecord :=
  { c with state := overlayState w, warningMessage := overlayWarning w }

/-- The classification decision of the signal-based variant, as a
function of the stringified mod id: `isNew`, then `isUpdatedOnNexus`,
then `isMissingData` (the order of the log messages in the loop), `none`
meaning the cached record is reused. -/
def classifyReasonId (prev : String → Option StoredRecord) (upd : List String)
    (modId : String) : Option Reason :=
  match prev modId with
  | none => some Reason.new
  | some cachedMod =>
    if upd.contains modId then some Reason.updatedUpstream
    else if cachedMod.files.isNone || cachedMod.changelogs.isNone then some Reason.missingData
    else none

/-- Classification of one overlay entry: via its stringified id. -/
def classifyReason (prev : String → Option StoredRecord) (upd : List String)
    (m : RawEntry) : Option Reason :=
  classifyReasonId prev upd (jsString m.id)

/-- One iteration of the classification loop: either the entry is queued
for fetching (`inl`) or the cached record, overridden with the current
overlay fields, is pushed to the results (`inr`). -/
def classifyStep (prev : String → Option StoredRecord) (upd : List String)
    (warnings : String → Option RawEntry) (m : RawEntry) :
    RawEntry ⊕ StoredRecord :=
  let modId := jsString m.id
  match prev modId with
  | none => Sum.inl m
  | some cachedMod =>
    if upd.contains modId then Sum.inl m
    else if cachedMod.files.isNone || cachedMod.changelogs.isNone then Sum.inl m
    else Sum.inr (reuseMerge (warnings modId) cachedMod)

/-- The per-mod fetch closure of the signal-based batch loop, as a
function of the stringified id: info fetch first (null aborts the
closure with no further calls), then files and changelogs, then the
merge into the final record shape. -/
def processOneId (env : FetchEnv) (warnings : String → Option RawEntry)
    (modId : String) : Option StoredRecord × List ApiCall :=
  match fetchModDataFromNexus (env.info modId) with
  | none => (none, [ApiCall.info modId])
  | some modData =>
    let filesData := fetchModFilesFromNexus (env.files modId)
    let changelogs := fetchModChangelogsFromNexus (env.changelogs modId)
    let w := warnings modId
    (some
      { mod_id := modData.mod_id
        name := modData.name
        summary := modData.summary
        version := modData.version
        picture_url := modData.picture_url
        author := modData.author
        mod_downloads := modData.mod_downloads
        endorsement_count := modData.endorsement_count
        updated_timestamp := modData.updated_timestamp
        created_timestamp := modData.created_timestamp
        description := modData.description
        state := overlayState w
        warningMessage := overlayWarning w
        files := some (filesData.files.getD [])
        changelogs := some changelogs },
      [ApiCall.info modId, ApiCall.files modId, ApiCall.changelogs modId])

/-- The per-mod fetch closure applied to an overlay entry
(`const modId = String(inputMod.id)` happens first). -/
def processOne (env : FetchEnv) (warnings : String → Option RawEntry)
    (m : RawEntry) : Option StoredRecord × List ApiCall :=
  processOneId env warnings (jsString m.id)

/-- One loop iteration of the batch loop at list `l`: take a batch of
`B`, run the per-entry closure over its members, keep the non-null
results, and insert one inter-batch delay when more entries remain
(`i + BATCH_SIZE < list.length`, i.e. `l.drop B` nonempty).  Structural
recursion on a fuel argument (the wrapper supplies the list length,
which suffices for any positive batch size; a batch size of 0 would
loop forever in JS). -/
def batchLoopAux (p : RawEntry → Option StoredRecord × List ApiCall)
    (B : Nat) : Nat → List RawEntry → List StoredRecord × List ApiCall
  | _, [] => ([], [])
  | 0, _ :: _ => ([], [])
  | fuel + 1, a :: l =>
    let cur := a :: l
    let rest := cur.drop B
    let processed := (cur.take B).map p
    let recs := processed.filterMap Prod.fst
    let calls := (processed.map Prod.snd).flatten
    let nxt := batchLoopAux p B fuel rest
    (recs ++ nxt.1,
      calls ++ (if rest.isEmpty then [] else [ApiCall.interBatchDelay]) ++ nxt.2)

/-- The batch loop `for (let i = 0; i < list.length; i += BATCH_SIZE)`
over the whole list. -/
def batchLoopGen (p : RawEntry → Option StoredRecord × List ApiCall)
    (B : Nat) (l : List RawEntry) : List StoredRecord × List ApiCall :=
  batchLoopAux p B l.length l

/-- `JSON.parse(warningsContent).filter(...)` of the signal-based
variant: discard entries whose id is absent, empty or blank. -/
def modsToProcessOf (rawOverlay : List RawEntry) : List RawEntry :=
  rawOverlay.filter (fun m => truthyId m.id)

/-- `warningsMap`: a JS `Map` keyed by `String(mod.id)`. -/
def warningsMapOf (mods : List RawEntry) : String → Option RawEntry :=
  jsMapFind (mods.map (fun m => (jsString m.id, m)))

/-- `previousDataMap`: a JS `Map` over the previous run's output, keyed
by `String(mod.mod_id)`. -/
def prevMapOf (oldJson : List StoredRecord) : String → Option StoredRecord :=
  jsMapFind (oldJson.map (fun r => (r.mod_id, r)))

/-- Results of the classification loop, in overlay order. -/
def classifiedSteps (prev : String → Option StoredRecord) (upd : List String)
    (warnings : String → Option RawEntry) (mods : List RawEntry) :
    List (RawEntry ⊕ StoredRecord) :=
  mods.map (classifyStep prev upd warnings)

/-- `modsToFetch`: the entries the classification loop queues. -/
def modsToFetchOf (prev : String → Option StoredRecord) (upd : List String)
    (warnings : String → Option RawEntry) (mods : List RawEntry) : List RawEntry :=
  (classifiedSteps prev upd warnings mods).filterMap Sum.getLeft?

/-- The cache-hit records pushed to `finalResults` during
classification, in overlay order. -/
def reusedResultsOf (prev : String → Option StoredRecord) (upd : List String)
    (warnings : String → Option RawEntry) (mods : List RawEntry) : List StoredRecord :=
  (classifiedSteps prev upd warnings mods).filterMap Sum.getRight?

/-- `buildCuratedList`, signal-based variant: load and filter the
overlay, build the two maps, call the `updated.json` endpoint (one API
call, failure yielding an empty signal is already folded into
`updatedIds`), classify every tracked entry, then run the batch loop
over the must-fetch list.  The first component is `finalResults`
(reused records first, then batch results); the second is the trace of
API calls and delays. -/
def buildCuratedList (B : Nat) (rawOverlay : List RawEntry)
    (oldJson : List StoredRecord) (updatedIds : List String) (env : FetchEnv) :
    List StoredRecord × List ApiCall :=
  let mods := modsToProcessOf rawOverlay
  let warnings := warningsMapOf mods
  let prev := prevMapOf oldJson
  let fetchList := modsToFetchOf prev updatedIds warnings mods
  let reused := reusedResultsOf prev updatedIds warnings mods
  let batched := batchLoopGen (processOne env warnings) B fetchList
  (reused ++ batched.1, ApiCall.updatedList :: batched.2)

/-- The smart-cache condition of the timestamp variant:
`cachedMod.updated_timestamp === modData.updated_timestamp &&
cachedMod.files && cachedMod.changelogs`. -/
def tsCacheHit (cachedMod : StoredRecord) (modData : ModInfo) : Bool :=
  cachedMod.updated_timestamp == modData.updated_timestamp
    && cachedMod.files.isSome && cachedMod.changelogs.isSome

/-- The merge step of the timestamp variant: info fields from the fresh
summary, curation fields from the current overlay entry, files and
changelogs from whichever branch was taken.  Note the fresh-files branch
assigns `filesData.files` with no fallback, so the files key can end up
absent. -/
def mergeTs (modData : ModInfo) (w : Option RawEntry)
    (files : Option (List String)) (changelogs : Option Changelogs) : StoredRecord :=
  { mod_id := modData.mod_id
    name := modData.name
    summary := modData.summary
    version := modData.version
    picture_url := modData.picture_url
    author := modData.author
    mod_downloads := modData.mod_downloads
    endorsement_count := modData.endorsement_count
    updated_timestamp := modData.updated_timestamp
    created_timestamp := modData.created_timestamp
    description := modData.description
    state := overlayState w
    warningMessage := overlayWarning w
    files := files
    changelogs := changelogs }

/-- The per-mod closure of the timestamp variant, as a function of the
stringified id: always an info fetch; on success, reuse the cached
files/changelogs iff the smart-cache condition holds, otherwise fetch
both. -/
def processOneTsId (env : FetchEnv) (warnings : String → Option RawEntry)
    (prev : String → Option StoredRecord) (modId : String) :
    Option StoredRecord × List ApiCall :=
  match fetchModDataFromNexus (env.info modId) with
  | none => (none, [ApiCall.info modId])
  | some modData =>
    let fresh : Option StoredRecord × List ApiCall :=
      let filesData := fetchModFilesFromNexus (env.files modId)
      let changelogs := fetchModChangelogsFromNexus (env.changelogs modId)
      (some (mergeTs modData (warnings modId) filesData.files (some changelogs)),
        [ApiCall.info modId, ApiCall.files modId, ApiCall.changelogs modId])
    match prev modId with
    | some cachedMod =>
      if tsCacheHit cachedMod modData then
        (some (mergeTs modData (warnings modId) cachedMod.files cachedMod.changelogs),
          [ApiCall.info modId])
      else fresh
    | none => fresh

/-- The per-mod closure of the timestamp variant applied to an overlay
entry. -/
def processOneTs (env : FetchEnv) (warnings : String → Option RawEntry)
    (prev : String → Option StoredRecord) (m : RawEntry) :
    Option StoredRecord × List ApiCall :=
  processOneTsId env warnings prev (jsString m.id)

/-- `buildCuratedList`, timestamp variant: the overlay is NOT filtered,
there is no change-signal call, and every entry goes through the batch
loop. -/
def buildCuratedListTs (B : Nat) (rawOverlay : List RawEntry)
    (oldJson : List StoredRecord) (env : FetchEnv) :
    List StoredRecord × List ApiCall :=
  let warnings := warningsMapOf rawOverlay
  let prev := prevMapOf oldJson
  batchLoopGen (processOneTs env warnings prev) B rawOverlay

/-- Fuel-based computation of the batches `list.slice(i, i + B)`
visited by the batch loop. -/
def chunkListAux (B : Nat) : Nat → List α → List (List α)
  | _, [] => []
  | 0, _ :: _ => []
  | fuel + 1, a :: l => ((a :: l).take B) :: chunkListAux B fuel ((a :: l).drop B)

/-- The batches `list.slice(i, i + B)` visited by the batch loop. -/
def chunkList (B : Nat) (l : List α) : List (List α) :=
  chunkListAux B l.length l

/-- Concatenate per-batch call blocks with exactly one inter-batch delay
between adjacent blocks and none after the last. -/
def joinDelays : List (List ApiCall) → List ApiCall
  | [] => []
  | [b] => b
  | b :: c :: rest => b ++ ApiCall.interBatchDelay :: joinDelays (c :: rest)

/-! Concrete sample data used by counterexamples and witnesses. -/

/-- A sample parsed mod-info body. -/
def sampleInfo : ModInfo :=
  { mod_id := "10", name := "Alpha", summary := "s", version := "1.0",
    picture_url := "pic", author := "au", mod_downloads := 3,
    endorsement_count := 2, updated_timestamp := 5, created_timestamp := 1,
    description := "d" }

/-- A well-formed upstream body for an arbitrary id. -/
def infoFor (id : String) : ModInfo := { sampleInfo with mod_id := id }

/-- Overlay entry for mod 10, no curation annotations. -/
def entry10 : RawEntry := { id := some "10", state := none, warningMessage := none }

/-- Overlay entry for mod 20 with curation annotations. -/
def entry20 : RawEntry :=
  { id := some "20", state := some "broken", warningMessage := some "crashes" }

/-- Overlay entry for mod 30, no curation annotations. -/
def entry30 : RawEntry := { id := some "30", state := none, warningMessage := none }

/-- Overlay entry with an absent id (a template line). -/
def entryBlank : RawEntry := { id := none, state := none, warningMessage := none }

/-- A complete cached record for mod 10 (note: empty file listing and
empty changelog map, both keys present). -/
def rec10 : StoredRecord :=
  { mod_id := "10", name := "Alpha", summary := "s", version := "1.0",
    picture_url := "pic", author := "au", mod_downloads := 3,
    endorsement_count := 2, updated_timestamp := 5, created_timestamp := 1,
    description := "d", state := some "normal", warningMessage := some "",
    files := some [], changelogs := some [] }

/-- A cached record for mod 10 whose changelog key is absent. -/
def rec10NoChangelogs : StoredRecord := { rec10 with changelogs := none }

/-- An upstream where every endpoint answers 200 with a well-formed
body whose `mod_id` echoes the requested id. -/
def envOk : FetchEnv :=
  { info := fun id => FetchResult.resp { status := 200, body := some (infoFor id) }
    files := fun _ => FetchResult.resp { status := 200, body := some { files := some ["f1"] } }
    changelogs := fun _ => FetchResult.resp { status := 200, body := some [("1.0", "c")] } }

/-- An upstream where every call fails with a network error. -/
def envDown : FetchEnv :=
  { info := fun _ => FetchResult.netErr
    files := fun _ => FetchResult.netErr
    changelogs := fun _ => FetchResult.netErr }

/-- An upstream whose info endpoint answers 429 (rate limited). -/
def env429 : FetchEnv :=
  { info := fun _ => FetchResult.resp { status := 429, body := none }
    files := fun _ => FetchResult.resp { status := 429, body := none }
    changelogs := fun _ => FetchResult.resp { status := 429, body := none } }

/-- An upstream where only the info endpoint works; files and
changelogs calls fail. -/
def envInfoOnly : FetchEnv :=
  { info := fun id => FetchResult.resp { status := 200, body := some (infoFor id) }
    files := fun _ => FetchResult.netErr
    changelogs := fun _ => FetchResult.netErr }

/-- Overlay entry for mod 10 carrying changed curation metadata. -/
def entry10Broken : RawEntry :=
  { id := some "10", state := some "broken", warningMessage := some "crash" }

/-- A fetch outcome on which the files/changelogs helpers take a
failure path: network error, non-ok status, or malformed body. -/
def fetchFailed {β : Type} : FetchResult β → Bool
  | .netErr => true
  | .resp r => !httpOk r.status || r.body.isNone

/-- Derived view used in the idempotence proof: the record (if any)
that one overlay entry contributes to the signal-variant output — the
overridden cached record when classified reuse, otherwise the result of
the per-mod fetch closure. -/
def entryRecord (env : FetchEnv) (warnings : String → Option RawEntry)
    (prev : String → Option StoredRecord) (upd : List String)
    (m : RawEntry) : Option StoredRecord :=
  match classifyStep prev upd warnings m with
  | Sum.inr r => some r
  | Sum.inl m2 => (processOne env warnings m2).1

/-! Basic inversion lemmas about the embedded helpers. -/

/-- A successful info fetch comes from an ok, non-429 response with a
parsed body. -/
theorem fetchModDataFromNexus_eq_some (res : FetchResult ModInfo) (d : ModInfo)
    (h : fetchModDataFromNexus res = some d) :
    ∃ hr : HttpResponse ModInfo, res = FetchResult.resp hr ∧ hr.body = some d := by
  unfold fetchModDataFromNexus infoTryBody at h
  cases res with
  | netErr => simp at h
  | resp hr =>
    refine ⟨hr, rfl, ?_⟩
    by_cases h429 : hr.status = 429
    · simp [h429] at h
    · simp only [h429, if_false] at h
      by_cases hok : httpOk hr.status
      · simp only [hok, Bool.not_true, if_false] at h
        cases hb : hr.body with
        | none => rw [hb] at h; simp at h
        | some b => rw [hb] at h; simp_all
      · simp only [Bool.not_eq_true] at hok
        simp [hok] at h

/-- A lookup hit in `previousDataMap` returns a record whose `mod_id`
is the lookup key. -/
theorem prevMapOf_mod_id (oldJson : List StoredRecord) (k : String) (c : StoredRecord)
    (h : prevMapOf oldJson k = some c) : c.mod_id = k := by
  unfold prevMapOf jsMapFind at h
  cases hf : (oldJson.map (fun r => (r.mod_id, r))).reverse.find? (fun p => p.1 == k) with
  | none => rw [hf] at h; simp at h
  | some p =>
    rw [hf] at h
    simp only [Option.map_some', Option.some.injEq] at h
    have hp := List.find?_some hf
    have hmem := List.mem_of_find?_eq_some hf
    rw [List.mem_reverse] at hmem
    obtain ⟨r, _, hpr⟩ := List.mem_map.mp hmem
    rw [← hpr] at hp h
    simp only [beq_iff_eq] at hp
    rw [← h]
    exact hp

/-- If a key/value pair occurs in the association list and every pair
with that key carries the same value, the JS-map lookup returns it. -/
theorem jsMapFind_eq_some_of_unique (l : List (String × α)) (k : String) (v : α)
    (hmem : (k, v) ∈ l) (huniq : ∀ p ∈ l, p.1 = k → p.2 = v) :
    jsMapFind l k = some v := by
  unfold jsMapFind
  cases hf : l.reverse.find? (fun p => p.1 == k) with
  | none =>
    exfalso
    have := List.find?_eq_none.mp hf (k, v) (List.mem_reverse.mpr hmem)
    simp at this
  | some p =>
    have hp := List.find?_some hf
    have hmemp := List.mem_reverse.mp (List.mem_of_find?_eq_some hf)
    simp only [beq_iff_eq] at hp
    simp [huniq p hmemp hp]

/-- On any failure path the files helper returns the literal
`{ files: [] }`. -/
theorem fetchModFilesFromNexus_failed (res : FetchResult FilesJson)
    (h : fetchFailed res = true) :
    fetchModFilesFromNexus res = { files := some [] } := by
  cases res with
  | netErr => rfl
  | resp r =>
    unfold fetchFailed at h
    unfold fetchModFilesFromNexus
    by_cases hok : httpOk r.status
    · simp only [hok, Bool.not_true, Bool.false_or] at h
      simp only [hok, Bool.not_true, Bool.false_eq_true, if_false]
      cases hb : r.body with
      | none => rfl
      | some b => rw [hb] at h; simp at h
    · simp only [Bool.not_eq_true] at hok
      simp [hok]

/-- On any failure path the changelogs helper returns the empty map. -/
theorem fetchModChangelogsFromNexus_failed (res : FetchResult Changelogs)
    (h : fetchFailed res = true) :
    fetchModChangelogsFromNexus res = [] := by
  cases res with
  | netErr => rfl
  | resp r =>
    unfold fetchFailed at h
    unfold fetchModChangelogsFromNexus
    by_cases hok : httpOk r.status
    · simp only [hok, Bool.not_true, Bool.false_or] at h
      simp only [hok, Bool.not_true, Bool.false_eq_true, if_false]
      cases hb : r.body with
      | none => rfl
      | some b => rw [hb] at h; simp at h
    · simp only [Bool.not_eq_true] at hok
      simp [hok]

/-- When the info fetch yields null, the per-mod closure stops: no
record and no further calls. -/
theorem processOneId_info_fail (env : FetchEnv) (warnings : String → Option RawEntry)
    (id : String) (h : fetchModDataFromNexus (env.info id) = none) :
    processOneId env warnings id = (none, [ApiCall.info id]) := by
  unfold processOneId
  rw [h]

/-- When the info fetch succeeds, the per-mod closure performs the files
and changelogs calls and yields a record whose key fields are pinned:
`mod_id` from the summary, curation fields from the current overlay
lookup, files from the files helper (with the `|| []` fallback),
changelogs from the changelogs helper. -/
theorem processOneId_info_some (env : FetchEnv) (warnings : String → Option RawEntry)
    (id : String) (d : ModInfo)
    (h : fetchModDataFromNexus (env.info id) = some d) :
    ∃ r, processOneId env warnings id =
        (some r, [ApiCall.info id, ApiCall.files id, ApiCall.changelogs id]) ∧
      r.mod_id = d.mod_id ∧
      r.updated_timestamp = d.updated_timestamp ∧
      r.state = overlayState (warnings id) ∧
      r.warningMessage = overlayWarning (warnings id) ∧
      r.files = some ((fetchModFilesFromNexus (env.files id)).files.getD []) ∧
      r.changelogs = some (fetchModChangelogsFromNexus (env.changelogs id)) := by
  unfold processOneId
  rw [h]
  exact ⟨_, rfl, rfl, rfl, rfl, rfl, rfl, rfl⟩

/-- Re-applying the overlay override to a record that already carries
exactly the override values is the identity. -/
theorem reuseMerge_self (w : Option RawEntry) (r : StoredRecord)
    (h1 : r.state = overlayState w) (h2 : r.warningMessage = overlayWarning w) :
    reuseMerge w r = r := by
  unfold reuseMerge
  rw [← h1, ← h2]

/-! Claim theorems. -/

/-- Claim C1 (code bug): the 429 branch of `fetchModDataFromNexus`
throws `RATE_LIMIT` inside its own `try` block, whose `catch` returns
null — so a 429 on the info fetch is swallowed, the record is dropped
like any ordinary failure, and the run completes normally instead of
aborting with a non-zero exit.  First conjunct: the try-body does raise
the distinguished error.  Second: the function nevertheless returns
null.  Third: a whole run against a 429-answering upstream finishes
normally with the record silently dropped. -/
theorem c1_rate_limit_swallowed :
    (∀ b : Option ModInfo,
      infoTryBody (FetchResult.resp { status := 429, body := b }) =
        Except.error "RATE_LIMIT") ∧
    (∀ b : Option ModInfo,
      fetchModDataFromNexus (FetchResult.resp { status := 429, body := b }) = none) ∧
    buildCuratedList 5 [entry10] [] [] env429 =
      ([], [ApiCall.updatedList, ApiCall.info "10"]) := by
  refine ⟨fun b => rfl, fun b => rfl, by decide⟩

/-- Claim C2 counterexample: a cached record for mod 10 missing the
changelog key, with "10" in the change-signal set — the classifier
returns `updated-upstream`, not `missing-data`, because the signal check
runs before the missing-data check. -/
theorem c2_counterexample :
    rec10NoChangelogs.changelogs = none ∧
    classifyReason (prevMapOf [rec10NoChangelogs]) ["10"] entry10 =
      some Reason.updatedUpstream ∧
    classifyReason (prevMapOf [rec10NoChangelogs]) ["10"] entry10 ≠
      some Reason.missingData := by decide

/-- Claim C2 (amended): for a cached record missing the file-listing or
changelog key, the classifier returns `missing-data` only when the id is
absent from the change-signal set; membership in the signal takes
priority and yields `updated-upstream`; either way the entry is queued
for fetching. -/
theorem c2_missing_data_priority
    (prev : String → Option StoredRecord) (upd : List String) (m : RawEntry)
    (c : StoredRecord) (hc : prev (jsString m.id) = some c)
    (hmiss : c.files.isNone ∨ c.changelogs.isNone) :
    (jsString m.id ∉ upd →
      classifyReason prev upd m = some Reason.missingData) ∧
    (jsString m.id ∈ upd →
      classifyReason prev upd m = some Reason.updatedUpstream) ∧
    (classifyReason prev upd m).isSome = true := by
  have hb : (c.files.isNone || c.changelogs.isNone) = true := by
    rcases hmiss with h | h <;> simp [h]
  unfold classifyReason classifyReasonId
  rw [hc]
  refine ⟨fun h => by simp [h, hb], fun h => by simp [h], ?_⟩
  by_cases h : jsString m.id ∈ upd <;> simp [h, hb]

/-- Witness for C2's amended theorem at a concrete input: a cached
record missing its changelog key and an empty change signal yield
`missing-data`. -/
theorem c2_missing_data_priority_witness :
    prevMapOf [rec10NoChangelogs] (jsString entry10.id) = some rec10NoChangelogs ∧
    (rec10NoChangelogs.files.isNone ∨ rec10NoChangelogs.changelogs.isNone) ∧
    classifyReason (prevMapOf [rec10NoChangelogs]) [] entry10 =
      some Reason.missingData :=
  ⟨by decide, by decide,
    (c2_missing_data_priority (prevMapOf [rec10NoChangelogs]) [] entry10
      rec10NoChangelogs (by decide) (by decide)).1 (by simp)⟩

/-- Claim C6 counterexample: the timestamp variant loads the overlay
without the blank-id filter, so an entry with an absent id is NOT
discarded — the run issues an info fetch for the stringified id
`"undefined"`. -/
theorem c6_counterexample :
    (buildCuratedListTs 5 [entryBlank] [] envDown).2 = [ApiCall.info "undefined"] ∧
    ApiCall.info "undefined" ∈ (buildCuratedListTs 5 [entryBlank] [] envDown).2 := by
  decide

/-- Claim C6 (amended): in the signal-based variant, an entry whose id
is absent, empty or whitespace-only is removed by the overlay filter, so
the whole run (classification, fetching, output and trace) is identical
to the run without that entry; the timestamp variant applies no such
filter (see the counterexample). -/
theorem c6_blank_discarded_signal
    (B : Nat) (l1 l2 : List RawEntry) (m : RawEntry) (oldJson : List StoredRecord)
    (upd : List String) (env : FetchEnv) (hm : truthyId m.id = false) :
    modsToProcessOf (l1 ++ m :: l2) = modsToProcessOf (l1 ++ l2) ∧
    buildCuratedList B (l1 ++ m :: l2) oldJson upd env =
      buildCuratedList B (l1 ++ l2) oldJson upd env := by
  have h1 : modsToProcessOf (l1 ++ m :: l2) = modsToProcessOf (l1 ++ l2) := by
    unfold modsToProcessOf
    simp [List.filter_append, List.filter_cons, hm]
  exact ⟨h1, by unfold buildCuratedList; rw [h1]⟩

/-- Witness for C6's amended theorem: a whitespace-only id entry is
dropped and the signal-variant run is unchanged by its presence. -/
theorem c6_blank_discarded_signal_witness :
    truthyId (some "  ") = false ∧
    buildCuratedList 5 ([] ++ { id := some "  ", state := none, warningMessage := none } :: [entry10]) [] [] envDown =
      buildCuratedList 5 ([] ++ [entry10]) [] [] envDown :=
  ⟨by decide,
    (c6_blank_discarded_signal 5 [] [entry10]
      { id := some "  ", state := none, warningMessage := none } [] [] envDown (by decide)).2⟩

/-- Claim C7: a cached record counts as complete exactly when both the
file-listing key and the changelog key are present; empty values still
count (first conjunct, an iff), a missing key forces `missing-data`
(second conjunct), and the timestamp variant's smart-cache condition
tests the same key presence (third conjunct). -/
theorem c7_complete_iff_keys_present :
    (∀ (prev : String → Option StoredRecord) (upd : List String) (modId : String)
      (c : StoredRecord), prev modId = some c → modId ∉ upd →
      (classifyReasonId prev upd modId = none ↔
        (c.files.isSome ∧ c.changelogs.isSome))) ∧
    (∀ (prev : String → Option StoredRecord) (upd : List String) (modId : String)
      (c : StoredRecord), prev modId = some c →
      (c.files.isNone ∨ c.changelogs.isNone) → modId ∉ upd →
      classifyReasonId prev upd modId = some Reason.missingData) ∧
    (∀ (c : StoredRecord) (d : ModInfo), c.updated_timestamp = d.updated_timestamp →
      (tsCacheHit c d = true ↔ (c.files.isSome ∧ c.changelogs.isSome))) := by
  refine ⟨?_, ?_, ?_⟩
  · intro prev upd modId c hc hupd
    unfold classifyReasonId
    rw [hc]
    by_cases hf : c.files.isNone <;> by_cases hch : c.changelogs.isNone <;>
      simp_all [Option.isNone_iff_eq_none, Option.isSome_iff_ne_none]
  · intro prev upd modId c hc hmiss hupd
    have hb : (c.files.isNone || c.changelogs.isNone) = true := by
      rcases hmiss with h | h <;> simp [h]
    unfold classifyReasonId
    rw [hc]
    simp [hupd, hb]
  · intro c d ht
    unfold tsCacheHit
    simp [ht]

/-- Witness for C7 at concrete inputs: `rec10` has both keys present
with empty values and is classified reuse; dropping the changelog key
yields `missing-data`; and `rec10` passes the timestamp variant's
smart-cache check against a summary with the matching timestamp. -/
theorem c7_complete_iff_keys_present_witness :
    classifyReasonId (prevMapOf [rec10]) [] "10" = none ∧
    classifyReasonId (prevMapOf [rec10NoChangelogs]) [] "10" = some Reason.missingData ∧
    tsCacheHit rec10 sampleInfo = true :=
  ⟨(c7_complete_iff_keys_present.1 (prevMapOf [rec10]) [] "10" rec10
      (by decide) (by simp)).mpr (by decide),
    c7_complete_iff_keys_present.2.1 (prevMapOf [rec10NoChangelogs]) [] "10"
      rec10NoChangelogs (by decide) (by decide) (by simp),
    (c7_complete_iff_keys_present.2.2 rec10 sampleInfo (by decide)).mpr (by decide)⟩

/-- Claim C4: per must-fetch entry, failure isolation.  First conjunct:
a null info fetch short-circuits the closure — no files/changelogs call,
no record, and (the closure being a total function) no exception.
Second/third: the files and changelogs helpers degrade every failure to
the empty listing / empty map.  Fourth: when the info fetch succeeds the
entry still yields a record, whose files/changelog fields are the
degraded empty values when the respective fetch failed. -/
theorem c4_failure_isolation :
    (∀ (env : FetchEnv) (warnings : String → Option RawEntry) (m : RawEntry),
      fetchModDataFromNexus (env.info (jsString m.id)) = none →
      processOne env warnings m = (none, [ApiCall.info (jsString m.id)])) ∧
    (∀ res : FetchResult FilesJson, fetchFailed res = true →
      fetchModFilesFromNexus res = { files := some [] }) ∧
    (∀ res : FetchResult Changelogs, fetchFailed res = true →
      fetchModChangelogsFromNexus res = []) ∧
    (∀ (env : FetchEnv) (warnings : String → Option RawEntry) (m : RawEntry)
      (d : ModInfo),
      fetchModDataFromNexus (env.info (jsString m.id)) = some d →
      ∃ r, (processOne env warnings m).1 = some r ∧
        (fetchFailed (env.files (jsString m.id)) = true → r.files = some []) ∧
        (fetchFailed (env.changelogs (jsString m.id)) = true →
          r.changelogs = some [])) := by
  refine ⟨?_, fetchModFilesFromNexus_failed, fetchModChangelogsFromNexus_failed, ?_⟩
  · intro env warnings m h
    exact processOneId_info_fail env warnings (jsString m.id) h
  · intro env warnings m d h
    obtain ⟨r, hr, _, _, _, _, hfiles, hch⟩ :=
      processOneId_info_some env warnings (jsString m.id) d h
    refine ⟨r, by unfold processOne; rw [hr], ?_, ?_⟩
    · intro hf
      rw [hfiles, fetchModFilesFromNexus_failed _ hf]
      rfl
    · intro hf
      rw [hch, fetchModChangelogsFromNexus_failed _ hf]

/-- Witness for C4 at concrete inputs: a dead upstream drops the entry
after the lone info call; an upstream where only the info endpoint
works still yields a record with empty files and changelogs. -/
theorem c4_failure_isolation_witness :
    processOne envDown (warningsMapOf [entry10]) entry10 =
      (none, [ApiCall.info (jsString entry10.id)]) ∧
    (∃ r, (processOne envInfoOnly (warningsMapOf [entry10]) entry10).1 = some r ∧
      (fetchFailed (envInfoOnly.files (jsString entry10.id)) = true →
        r.files = some []) ∧
      (fetchFailed (envInfoOnly.changelogs (jsString entry10.id)) = true →
        r.changelogs = some [])) :=
  ⟨c4_failure_isolation.1 envDown (warningsMapOf [entry10]) entry10 (by decide),
    c4_failure_isolation.2.2.2 envInfoOnly (warningsMapOf [entry10]) entry10
      (infoFor "10") (by decide)⟩

/-- Claim C10: the overlay override.  First conjunct: a reused record
equals the cached record on every field except `state` and
`warningMessage`, which take the override values.  Second: the override
defaults to `"normal"` / `""` exactly when the overlay has no matching
entry, and otherwise copies the entry's two fields.  Third: a freshly
fetched record carries the same two override values.  Fourth: at run
level, a complete cached record absent from the change signal is
re-emitted with the current overlay's curation fields applied. -/
theorem c10_overlay_override :
    (∀ (w : Option RawEntry) (c : StoredRecord),
      (reuseMerge w c).mod_id = c.mod_id ∧
      (reuseMerge w c).name = c.name ∧
      (reuseMerge w c).summary = c.summary ∧
      (reuseMerge w c).version = c.version ∧
      (reuseMerge w c).picture_url = c.picture_url ∧
      (reuseMerge w c).author = c.author ∧
      (reuseMerge w c).mod_downloads = c.mod_downloads ∧
      (reuseMerge w c).endorsement_count = c.endorsement_count ∧
      (reuseMerge w c).updated_timestamp = c.updated_timestamp ∧
      (reuseMerge w c).created_timestamp = c.created_timestamp ∧
      (reuseMerge w c).description = c.description ∧
      (reuseMerge w c).files = c.files ∧
      (reuseMerge w c).changelogs = c.changelogs ∧
      (reuseMerge w c).state = overlayState w ∧
      (reuseMerge w c).warningMessage = overlayWarning w) ∧
    (overlayState none = some "normal" ∧ overlayWarning none = some "" ∧
      ∀ e : RawEntry, overlayState (some e) = e.state ∧
        overlayWarning (some e) = e.warningMessage) ∧
    (∀ (env : FetchEnv) (warnings : String → Option RawEntry) (m : RawEntry)
      (d : ModInfo),
      fetchModDataFromNexus (env.info (jsString m.id)) = some d →
      ∃ r, (processOne env warnings m).1 = some r ∧
        r.state = overlayState (warnings (jsString m.id)) ∧
        r.warningMessage = overlayWarning (warnings (jsString m.id))) ∧
    (∀ (B : Nat) (overlay : List RawEntry) (oldJson : List StoredRecord)
      (upd : List String) (env : FetchEnv) (m : RawEntry) (c : StoredRecord),
      m ∈ modsToProcessOf overlay →
      prevMapOf oldJson (jsString m.id) = some c →
      jsString m.id ∉ upd → c.files.isSome → c.changelogs.isSome →
      reuseMerge (warningsMapOf (modsToProcessOf overlay) (jsString m.id)) c ∈
        (buildCuratedList B overlay oldJson upd env).1) := by
  refine ⟨?_, ⟨rfl, rfl, fun e => ⟨rfl, rfl⟩⟩, ?_, ?_⟩
  · intro w c
    exact ⟨rfl, rfl, rfl, rfl, rfl, rfl, rfl, rfl, rfl, rfl, rfl, rfl, rfl, rfl, rfl⟩
  · intro env warnings m d h
    obtain ⟨r, hr, _, _, hs, hw, _, _⟩ :=
      processOneId_info_some env warnings (jsString m.id) d h
    exact ⟨r, by unfold processOne; rw [hr], hs, hw⟩
  · intro B overlay oldJson upd env m c hm hc hupd hfc hcc
    obtain ⟨fv, hfv⟩ := Option.isSome_iff_exists.mp hfc
    obtain ⟨cv, hcv⟩ := Option.isSome_iff_exists.mp hcc
    have hstep : classifyStep (prevMapOf oldJson) upd
        (warningsMapOf (modsToProcessOf overlay)) m =
        Sum.inr (reuseMerge
          (warningsMapOf (modsToProcessOf overlay) (jsString m.id)) c) := by
      unfold classifyStep
      simp [hc, hupd, hfv, hcv]
    have hmem : Sum.inr (α := RawEntry)
        (reuseMerge (warningsMapOf (modsToProcessOf overlay) (jsString m.id)) c) ∈
        classifiedSteps (prevMapOf oldJson) upd
          (warningsMapOf (modsToProcessOf overlay)) (modsToProcessOf overlay) := by
      unfold classifiedSteps
      exact List.mem_map.mpr ⟨m, hm, hstep⟩
    have hreused : reuseMerge
        (warningsMapOf (modsToProcessOf overlay) (jsString m.id)) c ∈
        reusedResultsOf (prevMapOf oldJson) upd
          (warningsMapOf (modsToProcessOf overlay)) (modsToProcessOf overlay) := by
      unfold reusedResultsOf
      exact List.mem_filterMap.mpr ⟨_, hmem, rfl⟩
    unfold buildCuratedList
    exact List.mem_append_left _ hreused

/-- Witness for C10 at a concrete input: with the overlay's curation
fields changed to `broken`/`crash` and an unchanged complete cached
record, the run re-emits the cached record with the new curation
fields. -/
theorem c10_overlay_override_witness :
    entry10Broken ∈ modsToProcessOf [entry10Broken] ∧
    prevMapOf [rec10] (jsString entry10Broken.id) = some rec10 ∧
    reuseMerge (warningsMapOf (modsToProcessOf [entry10Broken])
        (jsString entry10Broken.id)) rec10 ∈
      (buildCuratedList 5 [entry10Broken] [rec10] [] envDown).1 :=
  ⟨by decide, by decide,
    c10_overlay_override.2.2.2 5 [entry10Broken] [rec10] [] envDown entry10Broken
      rec10 (by decide) (by decide) (by simp) (by decide) (by decide)⟩

/-- The batch loop at any fuel with an empty list yields nothing. -/
theorem batchLoopAux_nil (p : RawEntry → Option StoredRecord × List ApiCall)
    (B fuel : Nat) : batchLoopAux p B fuel [] = ([], []) := by
  cases fuel <;> rfl

/-- Chunking an empty list yields no batches. -/
theorem chunkListAux_nil (B fuel : Nat) :
    chunkListAux (α := α) B fuel [] = [] := by
  cases fuel <;> rfl

/-- With enough fuel and a positive batch size, the records produced by
the batch loop are exactly the non-null results of the per-entry
closure, in list order: batching neither drops, duplicates nor reorders
successful results. -/
theorem batchLoopAux_fst (p : RawEntry → Option StoredRecord × List ApiCall)
    (B : Nat) (hB : 0 < B) :
    ∀ (fuel : Nat) (l : List RawEntry), l.length ≤ fuel →
      (batchLoopAux p B fuel l).1 = l.filterMap (fun m => (p m).1) := by
  intro fuel
  induction fuel with
  | zero =>
    intro l hl
    have h0 : l = [] := List.eq_nil_of_length_eq_zero (Nat.le_zero.mp hl)
    subst h0
    rfl
  | succ n ih =>
    intro l hl
    cases l with
    | nil => rfl
    | cons a t =>
      have hdrop : ((a :: t).drop B).length ≤ n := by
        simp only [List.length_drop, List.length_cons]
        simp only [List.length_cons] at hl
        omega
      simp only [batchLoopAux]
      rw [ih _ hdrop, List.filterMap_map]
      conv_rhs => rw [← List.take_append_drop B (a :: t), List.filterMap_append]
      rfl

/-- Every element of the batch-loop trace is either an inter-batch delay
or one of the calls made by the per-entry closure on some member of the
input list. -/
theorem batchLoopAux_snd_mem (p : RawEntry → Option StoredRecord × List ApiCall)
    (B : Nat) :
    ∀ (fuel : Nat) (l : List RawEntry) (c : ApiCall),
      c ∈ (batchLoopAux p B fuel l).2 →
      c = ApiCall.interBatchDelay ∨ ∃ m ∈ l, c ∈ (p m).2 := by
  intro fuel
  induction fuel with
  | zero =>
    intro l c hc
    cases l with
    | nil => simp [batchLoopAux] at hc
    | cons a t => simp [batchLoopAux] at hc
  | succ n ih =>
    intro l c hc
    cases l with
    | nil => simp [batchLoopAux] at hc
    | cons a t =>
      simp only [batchLoopAux] at hc
      rw [List.mem_append, List.mem_append] at hc
      rcases hc with (hc | hc) | hc
      · right
        obtain ⟨blk, hblk, hcblk⟩ := List.mem_flatten.mp hc
        obtain ⟨pr, hpr, rfl⟩ := List.mem_map.mp hblk
        obtain ⟨m, hm, rfl⟩ := List.mem_map.mp hpr
        exact ⟨m, List.take_subset B (a :: t) hm, hcblk⟩
      · left
        by_cases hrest : ((a :: t).drop B).isEmpty <;> simp [hrest] at hc
        exact hc
      · rcases ih _ _ hc with h | ⟨m, hm, hcm⟩
        · exact Or.inl h
        · exact Or.inr ⟨m, List.drop_subset B (a :: t) hm, hcm⟩

/-- With enough fuel and a positive batch size, the batch-loop trace is
exactly the per-batch call blocks joined with single inter-batch
delays. -/
theorem batchLoopAux_snd_eq (p : RawEntry → Option StoredRecord × List ApiCall)
    (B : Nat) (hB : 0 < B) :
    ∀ (fuel : Nat) (l : List RawEntry), l.length ≤ fuel →
      (batchLoopAux p B fuel l).2 =
        joinDelays ((chunkListAux B fuel l).map
          (fun batch => ((batch.map p).map Prod.snd).flatten)) := by
  intro fuel
  induction fuel with
  | zero =>
    intro l hl
    have h0 : l = [] := List.eq_nil_of_length_eq_zero (Nat.le_zero.mp hl)
    subst h0
    rfl
  | succ n ih =>
    intro l hl
    cases l with
    | nil => rfl
    | cons a t =>
      simp only [batchLoopAux, chunkListAux]
      by_cases hrest : (a :: t).drop B = []
      · rw [hrest, batchLoopAux_nil, chunkListAux_nil]
        simp [joinDelays]
      · have hdrop : ((a :: t).drop B).length ≤ n := by
          simp only [List.length_drop, List.length_cons]
          simp only [List.length_cons] at hl
          omega
        rw [ih _ hdrop]
        have hres : ((a :: t).drop B).isEmpty = false := by
          simp [List.isEmpty_iff, hrest]
        rw [hres]
        cases hch : chunkListAux B n ((a :: t).drop B) with
        | nil =>
          exfalso
          cases hd : (a :: t).drop B with
          | nil => exact hrest hd
          | cons b u =>
            rw [hd] at hch hdrop
            cases n with
            | zero => simp at hdrop
            | succ n2 => simp [chunkListAux] at hch
        | cons cb crest =>
          simp [joinDelays]

/-- Number of batches: ceiling division, stated in its successor form. -/
theorem chunkListAux_length (B : Nat) (hB : 0 < B) :
    ∀ (fuel : Nat) (l : List α), l.length ≤ fuel → l ≠ [] →
      (chunkListAux B fuel l).length = (l.length - 1) / B + 1 := by
  intro fuel
  induction fuel with
  | zero =>
    intro l hl hne
    cases l with
    | nil => exact absurd rfl hne
    | cons a t => simp at hl
  | succ n ih =>
    intro l hl hne
    cases l with
    | nil => exact absurd rfl hne
    | cons a t =>
      simp only [chunkListAux, List.length_cons]
      by_cases hrest : (a :: t).drop B = []
      · rw [hrest, chunkListAux_nil]
        have hle : (a :: t).length ≤ B := List.drop_eq_nil_iff.mp hrest
        simp only [List.length_nil, List.length_cons] at hle ⊢
        rw [Nat.div_eq_of_lt (by omega)]
      · have hgt : B < (a :: t).length := by
          by_contra hcon
          exact hrest (List.drop_eq_nil_of_le (by omega))
        have hdrop : ((a :: t).drop B).length ≤ n := by
          simp only [List.length_drop, List.length_cons]
          simp only [List.length_cons] at hl
          omega
        rw [ih _ hdrop hrest]
        simp only [List.length_drop, List.length_cons] at hgt ⊢
        have harith : t.length + 1 - 1 = (t.length + 1 - B - 1) + B := by omega
        rw [harith, Nat.add_div_right _ hB]

/-- Counting delays in delay-joined blocks: one fewer than the number
of blocks, provided no block contains a delay itself. -/
theorem count_joinDelays :
    ∀ bs : List (List ApiCall), (∀ b ∈ bs, ApiCall.interBatchDelay ∉ b) →
      (joinDelays bs).count ApiCall.interBatchDelay = bs.length - 1 := by
  intro bs
  induction bs with
  | nil => intro h; rfl
  | cons b rest ih =>
    intro h
    cases rest with
    | nil =>
      have hb := List.count_eq_zero.mpr (h b (by simp))
      simpa [joinDelays] using hb
    | cons b2 rest2 =>
      have hb := List.count_eq_zero.mpr (h b (by simp))
      have ih2 := ih (fun x hx => h x (by simp [hx]))
      simp only [joinDelays] at ih2 ⊢
      rw [List.count_append, List.count_cons_self, hb]
      simp only [List.length_cons] at ih2 ⊢
      omega

/-- Every call made by the signal-variant per-mod closure targets the
closure's own mod id. -/
theorem processOneId_calls (env : FetchEnv) (warnings : String → Option RawEntry)
    (id : String) :
    ∀ c ∈ (processOneId env warnings id).2,
      c = ApiCall.info id ∨ c = ApiCall.files id ∨ c = ApiCall.changelogs id := by
  intro c hc
  unfold processOneId at hc
  cases h : fetchModDataFromNexus (env.info id) with
  | none => rw [h] at hc; simp at hc; simp [hc]
  | some d => rw [h] at hc; simp at hc; tauto

/-- The signal-variant per-mod closure never emits a delay marker. -/
theorem processOne_no_delay (env : FetchEnv) (warnings : String → Option RawEntry)
    (m : RawEntry) : ApiCall.interBatchDelay ∉ (processOne env warnings m).2 := by
  intro hc
  rcases processOneId_calls env warnings (jsString m.id) _ hc with h | h | h <;>
    exact ApiCall.noConfusion h

/-- Ceiling-division bridge for the batch count. -/
theorem pred_div_add_one (B N : Nat) (hB : 0 < B) (hN : 0 < N) :
    (N - 1) / B + 1 = (N + B - 1) / B := by
  have h : N + B - 1 = (N - 1) + B := by omega
  rw [h, Nat.add_div_right _ hB]

/-- Claim C8: with batch size `B > 0` and a nonempty must-fetch list of
length `N`, the run's trace after the change-signal call is exactly the
per-batch call blocks separated by single delays (every member of a
batch is processed before the delay and the next batch starts), there
are `ceil(N/B)` batches, and the trace contains exactly `ceil(N/B) - 1`
inter-batch delays. -/
theorem c8_batch_schedule (B : Nat) (overlay : List RawEntry)
    (oldJson : List StoredRecord) (upd : List String) (env : FetchEnv)
    (hB : 0 < B) :
    let mods := modsToProcessOf overlay
    let warnings := warningsMapOf mods
    let fetchList := modsToFetchOf (prevMapOf oldJson) upd warnings mods
    fetchList ≠ [] →
    ((buildCuratedList B overlay oldJson upd env).2 =
      ApiCall.updatedList ::
        joinDelays ((chunkList B fetchList).map
          (fun batch =>
            ((batch.map (processOne env warnings)).map Prod.snd).flatten)) ∧
    (chunkList B fetchList).length = (fetchList.length + B - 1) / B ∧
    (buildCuratedList B overlay oldJson upd env).2.count ApiCall.interBatchDelay =
      (fetchList.length + B - 1) / B - 1) := by
  intro mods warnings fetchList hne
  have hlen : 0 < fetchList.length := List.length_pos.mpr hne
  have htrace : (buildCuratedList B overlay oldJson upd env).2 =
      ApiCall.updatedList ::
        joinDelays ((chunkList B fetchList).map
          (fun batch =>
            ((batch.map (processOne env warnings)).map Prod.snd).flatten)) := by
    unfold buildCuratedList batchLoopGen chunkList
    exact congrArg _ (batchLoopAux_snd_eq _ B hB _ _ le_rfl)
  have hchunks : (chunkList B fetchList).length = (fetchList.length + B - 1) / B := by
    unfold chunkList
    rw [chunkListAux_length B hB _ _ le_rfl hne]
    exact pred_div_add_one B fetchList.length hB hlen
  refine ⟨htrace, hchunks, ?_⟩
  rw [htrace]
  have hnd : ∀ b ∈ (chunkList B fetchList).map
      (fun batch =>
        ((batch.map (processOne env warnings)).map Prod.snd).flatten),
      ApiCall.interBatchDelay ∉ b := by
    intro b hb hdel
    obtain ⟨batch, hbatch, rfl⟩ := List.mem_map.mp hb
    obtain ⟨blk, hblk, hdel2⟩ := List.mem_flatten.mp hdel
    obtain ⟨pr, hpr, rfl⟩ := List.mem_map.mp hblk
    obtain ⟨m, hm, rfl⟩ := List.mem_map.mp hpr
    exact processOne_no_delay env warnings m hdel2
  rw [List.count_cons]
  rw [count_joinDelays _ hnd]
  simp [hchunks]

/-- Witness for C8: three new mods with batch size 2 give two batches
and exactly one inter-batch delay. -/
theorem c8_batch_schedule_witness :
    (chunkList 2 (modsToFetchOf (prevMapOf []) []
        (warningsMapOf (modsToProcessOf [entry10, entry20, entry30]))
        (modsToProcessOf [entry10, entry20, entry30]))).length = 2 ∧
    (buildCuratedList 2 [entry10, entry20, entry30] [] [] envDown).2.count
        ApiCall.interBatchDelay = 1 :=
  ⟨((c8_batch_schedule 2 [entry10, entry20, entry30] [] [] envDown
      (by decide)) (by decide)).2.1,
    ((c8_batch_schedule 2 [entry10, entry20, entry30] [] [] envDown
      (by decide)) (by decide)).2.2⟩

/-- The classification loop queues only the entry it is examining. -/
theorem classifyStep_inl (prev : String → Option StoredRecord) (upd : List String)
    (warnings : String → Option RawEntry) (m x : RawEntry)
    (h : classifyStep prev upd warnings m = Sum.inl x) : x = m := by
  unfold classifyStep at h
  cases hp : prev (jsString m.id) with
  | none => simp [hp] at h; exact h.symm
  | some c =>
    by_cases h1 : jsString m.id ∈ upd
    · simp [hp, h1] at h
      exact h.symm
    · by_cases h2 : c.files = none ∨ c.changelogs = none
      · simp [hp, h1, h2] at h
        exact h.symm
      · simp [hp, h1, h2] at h

/-- An entry is queued for fetching iff the classification reason for
its stringified id is some must-fetch reason. -/
theorem classifyStep_inl_iff (prev : String → Option StoredRecord) (upd : List String)
    (warnings : String → Option RawEntry) (m : RawEntry) :
    classifyStep prev upd warnings m = Sum.inl m ↔
      (classifyReasonId prev upd (jsString m.id)).isSome = true := by
  unfold classifyStep classifyReasonId
  cases hp : prev (jsString m.id) with
  | none => simp [hp]
  | some c =>
    by_cases h1 : jsString m.id ∈ upd
    · simp [hp, h1]
    · by_cases h2 : c.files = none ∨ c.changelogs = none <;> simp [hp, h1, h2]

/-- Membership in the must-fetch list: the entry comes from the
processed overlay and was classified must-fetch. -/
theorem mem_modsToFetchOf (prev : String → Option StoredRecord) (upd : List String)
    (warnings : String → Option RawEntry) (mods : List RawEntry) (m : RawEntry)
    (hm : m ∈ modsToFetchOf prev upd warnings mods) :
    m ∈ mods ∧ classifyStep prev upd warnings m = Sum.inl m := by
  unfold modsToFetchOf classifiedSteps at hm
  obtain ⟨s, hs, hgl⟩ := List.mem_filterMap.mp hm
  obtain ⟨m2, hm2, rfl⟩ := List.mem_map.mp hs
  cases hcs : classifyStep prev upd warnings m2 with
  | inl x =>
    rw [hcs] at hgl
    have hxm : x = m := by simpa using hgl
    have hxm2 : x = m2 := classifyStep_inl prev upd warnings m2 x hcs
    subst hxm
    subst hxm2
    exact ⟨hm2, hcs⟩
  | inr r =>
    rw [hcs] at hgl
    simp [Sum.getLeft?] at hgl

/-- Membership in the reused results: the record is a cached record of
some processed entry, re-emitted with the current overlay override. -/
theorem reused_mem_inv (prev : String → Option StoredRecord) (upd : List String)
    (warnings : String → Option RawEntry) (mods : List RawEntry) (r : StoredRecord)
    (hr : r ∈ reusedResultsOf prev upd warnings mods) :
    ∃ m ∈ mods, ∃ c, prev (jsString m.id) = some c ∧
      r = reuseMerge (warnings (jsString m.id)) c := by
  unfold reusedResultsOf classifiedSteps at hr
  obtain ⟨s, hs, hgr⟩ := List.mem_filterMap.mp hr
  obtain ⟨m, hm, rfl⟩ := List.mem_map.mp hs
  refine ⟨m, hm, ?_⟩
  unfold classifyStep at hgr
  cases hp : prev (jsString m.id) with
  | none => simp [hp, Sum.getRight?] at hgr
  | some c =>
    by_cases h1 : jsString m.id ∈ upd
    · simp [hp, h1, Sum.getRight?] at hgr
    · by_cases h2 : c.files = none ∨ c.changelogs = none
      · simp [hp, h1, h2, Sum.getRight?] at hgr
      · simp [hp, h1, h2, Sum.getRight?] at hgr
        exact ⟨c, by simp [hp], hgr.symm⟩

/-- The output records of the signal-variant run: the reused records in
overlay order followed by the non-null results of the per-mod closure
over the must-fetch list, in order. -/
theorem buildCuratedList_fst (B : Nat) (overlay : List RawEntry)
    (oldJson : List StoredRecord) (upd : List String) (env : FetchEnv)
    (hB : 0 < B) :
    (buildCuratedList B overlay oldJson upd env).1 =
      reusedResultsOf (prevMapOf oldJson) upd
          (warningsMapOf (modsToProcessOf overlay)) (modsToProcessOf overlay) ++
        (modsToFetchOf (prevMapOf oldJson) upd
            (warningsMapOf (modsToProcessOf overlay)) (modsToProcessOf overlay)).filterMap
          (fun m => (processOne env (warningsMapOf (modsToProcessOf overlay)) m).1) := by
  simp only [buildCuratedList, batchLoopGen]
  rw [batchLoopAux_fst _ B hB _ _ le_rfl]

/-- Every call made by the timestamp-variant per-mod closure targets the
closure's own mod id. -/
theorem processOneTsId_calls (env : FetchEnv) (warnings : String → Option RawEntry)
    (prev : String → Option StoredRecord) (id : String) :
    ∀ c ∈ (processOneTsId env warnings prev id).2,
      c = ApiCall.info id ∨ c = ApiCall.files id ∨ c = ApiCall.changelogs id := by
  intro c hc
  unfold processOneTsId at hc
  cases h : fetchModDataFromNexus (env.info id) with
  | none => rw [h] at hc; simp at hc; simp [hc]
  | some d =>
    rw [h] at hc
    cases hp : prev id with
    | none => rw [hp] at hc; simp at hc; tauto
    | some cm =>
      rw [hp] at hc
      by_cases hhit : tsCacheHit cm d <;> simp [hhit] at hc <;> tauto

/-- Claim C5: complete cache plus no change evidence means reuse and no
dependent fetches.  First conjunct (signal variant): a complete cached
record whose id is absent from the change signal is classified reuse,
and the whole run's trace contains no files or changelogs call for that
id.  Second conjunct (timestamp variant): when the freshly fetched
summary timestamp equals the cached one and the cache is complete, the
per-mod closure emits only the info call, and the whole run's trace
contains no files or changelogs call for that id. -/
theorem c5_reuse_no_dependent_fetch :
    (∀ (B : Nat) (overlay : List RawEntry) (oldJson : List StoredRecord)
      (upd : List String) (env : FetchEnv) (m : RawEntry) (c : StoredRecord),
      prevMapOf oldJson (jsString m.id) = some c →
      c.files.isSome → c.changelogs.isSome → jsString m.id ∉ upd →
      classifyReason (prevMapOf oldJson) upd m = none ∧
      ∀ call ∈ (buildCuratedList B overlay oldJson upd env).2,
        call ≠ ApiCall.files (jsString m.id) ∧
        call ≠ ApiCall.changelogs (jsString m.id)) ∧
    (∀ (B : Nat) (overlay : List RawEntry) (oldJson : List StoredRecord)
      (env : FetchEnv) (id : String) (c : StoredRecord) (d : ModInfo),
      prevMapOf oldJson id = some c →
      fetchModDataFromNexus (env.info id) = some d →
      c.updated_timestamp = d.updated_timestamp →
      c.files.isSome → c.changelogs.isSome →
      (∀ m2 : RawEntry, jsString m2.id = id →
        (processOneTs env (warningsMapOf overlay) (prevMapOf oldJson) m2).2 =
          [ApiCall.info id]) ∧
      ∀ call ∈ (buildCuratedListTs B overlay oldJson env).2,
        call ≠ ApiCall.files id ∧ call ≠ ApiCall.changelogs id) := by
  constructor
  · intro B overlay oldJson upd env m c hc hfc hcc hupd
    obtain ⟨fv, hfv⟩ := Option.isSome_iff_exists.mp hfc
    obtain ⟨cv, hcv⟩ := Option.isSome_iff_exists.mp hcc
    have hreason : classifyReasonId (prevMapOf oldJson) upd (jsString m.id) = none := by
      unfold classifyReasonId
      simp [hc, hupd, hfv, hcv]
    refine ⟨hreason, ?_⟩
    intro call hcall
    have hother : ∀ m2 : RawEntry,
        m2 ∈ modsToFetchOf (prevMapOf oldJson) upd
          (warningsMapOf (modsToProcessOf overlay)) (modsToProcessOf overlay) →
        jsString m2.id ≠ jsString m.id := by
      intro m2 hm2 heq
      have hstep := (mem_modsToFetchOf _ _ _ _ _ hm2).2
      have hsome := (classifyStep_inl_iff _ _ _ _).mp hstep
      rw [heq, hreason] at hsome
      simp at hsome
    unfold buildCuratedList at hcall
    rcases List.mem_cons.mp hcall with rfl | hcall2
    · exact ⟨fun h => ApiCall.noConfusion h, fun h => ApiCall.noConfusion h⟩
    · rcases batchLoopAux_snd_mem _ B _ _ _ hcall2 with rfl | ⟨m2, hm2, hcm⟩
      · exact ⟨fun h => ApiCall.noConfusion h, fun h => ApiCall.noConfusion h⟩
      · have hne := hother m2 hm2
        rcases processOneId_calls env _ (jsString m2.id) call hcm with h | h | h <;>
          subst h
        · exact ⟨fun h => ApiCall.noConfusion h, fun h => ApiCall.noConfusion h⟩
        · exact ⟨fun h => hne (by injection h), fun h => ApiCall.noConfusion h⟩
        · exact ⟨fun h => ApiCall.noConfusion h, fun h => hne (by injection h)⟩
  · intro B overlay oldJson env id c d hc hinfo ht hfc hcc
    obtain ⟨fv, hfv⟩ := Option.isSome_iff_exists.mp hfc
    obtain ⟨cv, hcv⟩ := Option.isSome_iff_exists.mp hcc
    have hhit : tsCacheHit c d = true := by
      unfold tsCacheHit
      simp [ht, hfc, hcc]
    have honly : ∀ m2 : RawEntry, jsString m2.id = id →
        (processOneTs env (warningsMapOf overlay) (prevMapOf oldJson) m2).2 =
          [ApiCall.info id] := by
      intro m2 heq
      unfold processOneTs processOneTsId
      rw [heq, hinfo, hc]
      simp [hhit]
    refine ⟨honly, ?_⟩
    intro call hcall
    unfold buildCuratedListTs at hcall
    rcases batchLoopAux_snd_mem _ B _ _ _ hcall with rfl | ⟨m2, hm2, hcm⟩
    · exact ⟨fun h => ApiCall.noConfusion h, fun h => ApiCall.noConfusion h⟩
    · by_cases heq : jsString m2.id = id
      · have hcm2 := hcm
        rw [honly m2 heq] at hcm2
        rcases List.mem_singleton.mp hcm2 with rfl
        exact ⟨fun h => ApiCall.noConfusion h, fun h => ApiCall.noConfusion h⟩
      · have hcm2 : call ∈ (processOneTsId env (warningsMapOf overlay)
            (prevMapOf oldJson) (jsString m2.id)).2 := hcm
        rcases processOneTsId_calls env _ _ (jsString m2.id) call hcm2 with h | h | h <;>
          subst h
        · exact ⟨fun h => ApiCall.noConfusion h, fun h => ApiCall.noConfusion h⟩
        · exact ⟨fun h => heq (by injection h), fun h => ApiCall.noConfusion h⟩
        · exact ⟨fun h => ApiCall.noConfusion h, fun h => heq (by injection h)⟩

/-- Witness for C5 at concrete inputs: mod 10 with a complete cached
record, empty signal (signal variant) and matching timestamp (timestamp
variant) — reuse is decided and the traces carry no files/changelogs
call for it. -/
theorem c5_reuse_no_dependent_fetch_witness :
    (classifyReason (prevMapOf [rec10]) [] entry10 = none ∧
      ∀ call ∈ (buildCuratedList 5 [entry10] [rec10] [] envOk).2,
        call ≠ ApiCall.files (jsString entry10.id) ∧
        call ≠ ApiCall.changelogs (jsString entry10.id)) ∧
    (∀ call ∈ (buildCuratedListTs 5 [entry10] [rec10] envOk).2,
      call ≠ ApiCall.files "10" ∧ call ≠ ApiCall.changelogs "10") :=
  ⟨c5_reuse_no_dependent_fetch.1 5 [entry10] [rec10] [] envOk entry10 rec10
      (by decide) (by decide) (by decide) (by simp),
    (c5_reuse_no_dependent_fetch.2 5 [entry10] [rec10] envOk "10" rec10
      (infoFor "10") (by decide) (by decide) (by decide) (by decide) (by decide)).2⟩

/-- The upstream `envOk` is well-formed: every parsed info body echoes
the requested id in its `mod_id` field. -/
theorem envOk_wf : ∀ (id : String) (hr : HttpResponse ModInfo) (d : ModInfo),
    envOk.info id = FetchResult.resp hr → hr.body = some d → d.mod_id = id := by
  intro id hr d h1 h2
  unfold envOk at h1
  simp only at h1
  injection h1 with h1
  rw [← h1] at h2
  simp only [Option.some.injEq] at h2
  rw [← h2]
  rfl

/-- The dead upstream is (vacuously) well-formed: it never answers. -/
theorem envDown_wf : ∀ (id : String) (hr : HttpResponse ModInfo) (d : ModInfo),
    envDown.info id = FetchResult.resp hr → hr.body = some d → d.mod_id = id := by
  intro id hr d h1 h2
  exact absurd h1 (by unfold envDown; simp)

/-- Claim C3: one Final Record per qualifying Tracked Entry.  First
conjunct: the output is exactly one reused record per reuse-classified
entry (in overlay order) followed by one record per must-fetch entry
whose info fetch succeeded (in order) — entries whose fetch failed
contribute nothing, and the run (a total function) terminates without
an exception.  Second conjunct: a new entry (no cached record) whose
info fetch fails yields no output record carrying its identifier,
assuming the upstream echoes the requested id in fetched bodies. -/
theorem c3_one_record_per_entry (B : Nat) (overlay : List RawEntry)
    (oldJson : List StoredRecord) (upd : List String) (env : FetchEnv)
    (hB : 0 < B)
    (hwf : ∀ (id : String) (hr : HttpResponse ModInfo) (d : ModInfo),
      env.info id = FetchResult.resp hr → hr.body = some d → d.mod_id = id) :
    ((buildCuratedList B overlay oldJson upd env).1 =
      reusedResultsOf (prevMapOf oldJson) upd
          (warningsMapOf (modsToProcessOf overlay)) (modsToProcessOf overlay) ++
        (modsToFetchOf (prevMapOf oldJson) upd
            (warningsMapOf (modsToProcessOf overlay)) (modsToProcessOf overlay)).filterMap
          (fun m => (processOne env (warningsMapOf (modsToProcessOf overlay)) m).1)) ∧
    (∀ m ∈ modsToProcessOf overlay,
      prevMapOf oldJson (jsString m.id) = none →
      fetchModDataFromNexus (env.info (jsString m.id)) = none →
      ∀ r ∈ (buildCuratedList B overlay oldJson upd env).1,
        r.mod_id ≠ jsString m.id) := by
  refine ⟨buildCuratedList_fst B overlay oldJson upd env hB, ?_⟩
  intro m hm hprev hfail r hr
  rw [buildCuratedList_fst B overlay oldJson upd env hB] at hr
  rcases List.mem_append.mp hr with hr | hr
  · obtain ⟨m2, hm2, c, hc, rfl⟩ := reused_mem_inv _ _ _ _ _ hr
    have hcid : c.mod_id = jsString m2.id := prevMapOf_mod_id oldJson _ c hc
    intro hcontra
    have : (reuseMerge (warningsMapOf (modsToProcessOf overlay) (jsString m2.id)) c).mod_id
        = c.mod_id := rfl
    rw [this, hcid] at hcontra
    rw [hcontra] at hc
    rw [hprev] at hc
    exact Option.noConfusion hc
  · obtain ⟨m2, hm2, hres⟩ := List.mem_filterMap.mp hr
    cases hfetch : fetchModDataFromNexus (env.info (jsString m2.id)) with
    | none =>
      rw [show (processOne env (warningsMapOf (modsToProcessOf overlay)) m2) =
        processOneId env (warningsMapOf (modsToProcessOf overlay)) (jsString m2.id) from rfl,
        processOneId_info_fail _ _ _ hfetch] at hres
      exact Option.noConfusion hres
    | some d =>
      obtain ⟨r2, hr2, hrid, _, _, _, _, _⟩ :=
        processOneId_info_some env (warningsMapOf (modsToProcessOf overlay))
          (jsString m2.id) d hfetch
      have : (processOne env (warningsMapOf (modsToProcessOf overlay)) m2).1 = some r2 := by
        rw [show (processOne env (warningsMapOf (modsToProcessOf overlay)) m2) =
          processOneId env (warningsMapOf (modsToProcessOf overlay)) (jsString m2.id) from rfl,
          hr2]
      rw [this] at hres
      cases hres
      obtain ⟨hresp, hres1, hres2⟩ := fetchModDataFromNexus_eq_some _ d hfetch
      have hdid : d.mod_id = jsString m2.id := hwf _ _ _ hres1 hres2
      intro hcontra
      rw [hrid, hdid] at hcontra
      rw [hcontra] at hfetch
      rw [hfail] at hfetch
      exact Option.noConfusion hfetch

/-- Classification loop, head step, must-fetch case. -/
theorem modsToFetchOf_cons_inl (prev : String → Option StoredRecord)
    (upd : List String) (warnings : String → Option RawEntry)
    (m : RawEntry) (rest : List RawEntry)
    (h : classifyStep prev upd warnings m = Sum.inl m) :
    modsToFetchOf prev upd warnings (m :: rest) =
      m :: modsToFetchOf prev upd warnings rest := by
  unfold modsToFetchOf classifiedSteps
  rw [List.map_cons, List.filterMap_cons, h]
  rfl

/-- Classification loop, head step, reuse case (fetch list). -/
theorem modsToFetchOf_cons_inr (prev : String → Option StoredRecord)
    (upd : List String) (warnings : String → Option RawEntry)
    (m : RawEntry) (rest : List RawEntry) (r : StoredRecord)
    (h : classifyStep prev upd warnings m = Sum.inr r) :
    modsToFetchOf prev upd warnings (m :: rest) =
      modsToFetchOf prev upd warnings rest := by
  unfold modsToFetchOf classifiedSteps
  rw [List.map_cons, List.filterMap_cons, h]
  rfl

/-- Classification loop, head step, must-fetch case (reused list). -/
theorem reusedResultsOf_cons_inl (prev : String → Option StoredRecord)
    (upd : List String) (warnings : String → Option RawEntry)
    (m : RawEntry) (rest : List RawEntry)
    (h : classifyStep prev upd warnings m = Sum.inl m) :
    reusedResultsOf prev upd warnings (m :: rest) =
      reusedResultsOf prev upd warnings rest := by
  unfold reusedResultsOf classifiedSteps
  rw [List.map_cons, List.filterMap_cons, h]
  rfl

/-- Classification loop, head step, reuse case (reused list). -/
theorem reusedResultsOf_cons_inr (prev : String → Option StoredRecord)
    (upd : List String) (warnings : String → Option RawEntry)
    (m : RawEntry) (rest : List RawEntry) (r : StoredRecord)
    (h : classifyStep prev upd warnings m = Sum.inr r) :
    reusedResultsOf prev upd warnings (m :: rest) =
      r :: reusedResultsOf prev upd warnings rest := by
  unfold reusedResultsOf classifiedSteps
  rw [List.map_cons, List.filterMap_cons, h]
  rfl

/-- The output sequence (reused records followed by fetched records) is
a permutation of the per-entry contributions in overlay order. -/
theorem output_perm_entryRecord (env : FetchEnv)
    (warnings : String → Option RawEntry) (prev : String → Option StoredRecord)
    (upd : List String) :
    ∀ mods : List RawEntry,
      (reusedResultsOf prev upd warnings mods ++
        (modsToFetchOf prev upd warnings mods).filterMap
          (fun m => (processOne env warnings m).1)).Perm
        (mods.filterMap (entryRecord env warnings prev upd)) := by
  intro mods
  induction mods with
  | nil => exact List.Perm.nil
  | cons m rest ih =>
    cases hcs : classifyStep prev upd warnings m with
    | inr r =>
      have he : entryRecord env warnings prev upd m = some r := by
        unfold entryRecord
        rw [hcs]
      rw [reusedResultsOf_cons_inr _ _ _ _ _ _ hcs,
        modsToFetchOf_cons_inr _ _ _ _ _ _ hcs,
        List.filterMap_cons_some he, List.cons_append]
      exact ih.cons r
    | inl x =>
      have hx := (classifyStep_inl _ _ _ _ _ hcs).symm
      subst hx
      have he : entryRecord env warnings prev upd m = (processOne env warnings m).1 := by
        unfold entryRecord
        rw [hcs]
      rw [reusedResultsOf_cons_inl _ _ _ _ _ hcs,
        modsToFetchOf_cons_inl _ _ _ _ _ hcs]
      cases hp : (processOne env warnings m).1 with
      | none =>
        simp only [List.filterMap_cons, hp, he]
        exact ih
      | some r =>
        simp only [List.filterMap_cons, hp, he]
        exact List.Perm.trans List.perm_middle (ih.cons r)

/-- The reuse decision exposes a complete cached record underneath. -/
theorem classifyStep_inr_inv (prev : String → Option StoredRecord)
    (upd : List String) (warnings : String → Option RawEntry)
    (m : RawEntry) (r : StoredRecord)
    (h : classifyStep prev upd warnings m = Sum.inr r) :
    ∃ c, prev (jsString m.id) = some c ∧ c.files.isSome ∧ c.changelogs.isSome ∧
      r = reuseMerge (warnings (jsString m.id)) c := by
  unfold classifyStep at h
  cases hp : prev (jsString m.id) with
  | none => simp [hp] at h
  | some c =>
    by_cases h1 : jsString m.id ∈ upd
    · simp [hp, h1] at h
    · by_cases h2 : c.files = none ∨ c.changelogs = none
      · simp [hp, h1, h2] at h
      · simp [hp, h1, h2] at h
        push_neg at h2
        exact ⟨c, by simp [hp],
          by simp [Option.isSome_iff_ne_none, h2.1],
          by simp [Option.isSome_iff_ne_none, h2.2], h.symm⟩

/-- A processed entry classified must-fetch lands in the must-fetch
list. -/
theorem mem_modsToFetchOf_of (prev : String → Option StoredRecord)
    (upd : List String) (warnings : String → Option RawEntry)
    (mods : List RawEntry) (m : RawEntry) (hm : m ∈ mods)
    (h : classifyStep prev upd warnings m = Sum.inl m) :
    m ∈ modsToFetchOf prev upd warnings mods := by
  unfold modsToFetchOf classifiedSteps
  exact List.mem_filterMap.mpr ⟨Sum.inl m, List.mem_map.mpr ⟨m, hm, h⟩, rfl⟩

/-- An entry's contribution depends only on its stringified id. -/
theorem entryRecord_id_congr (env : FetchEnv) (warnings : String → Option RawEntry)
    (prev : String → Option StoredRecord) (upd : List String) (m m2 : RawEntry)
    (h : jsString m.id = jsString m2.id) :
    entryRecord env warnings prev upd m = entryRecord env warnings prev upd m2 := by
  unfold entryRecord classifyStep
  rw [h]
  cases hp : prev (jsString m2.id) with
  | none =>
    simp only [hp]
    show (processOne env warnings m).1 = (processOne env warnings m2).1
    unfold processOne
    rw [h]
  | some c =>
    simp only [hp]
    by_cases h1 : upd.contains (jsString m2.id) = true
    · simp only [if_pos h1]
      show (processOne env warnings m).1 = (processOne env warnings m2).1
      unfold processOne
      rw [h]
    · simp only [if_neg h1]
      by_cases h2 : (c.files.isNone || c.changelogs.isNone) = true
      · simp only [if_pos h2]
        show (processOne env warnings m).1 = (processOne env warnings m2).1
        unfold processOne
        rw [h]
      · simp only [if_neg h2]

/-- When every entry classifies as reuse, nothing is queued. -/
theorem modsToFetchOf_eq_nil (prev : String → Option StoredRecord)
    (upd : List String) (warnings : String → Option RawEntry)
    (mods : List RawEntry)
    (h : ∀ m ∈ mods, ∃ r, classifyStep prev upd warnings m = Sum.inr r) :
    modsToFetchOf prev upd warnings mods = [] := by
  unfold modsToFetchOf classifiedSteps
  rw [List.filterMap_eq_nil_iff]
  intro s hs
  obtain ⟨m, hm, rfl⟩ := List.mem_map.mp hs
  obtain ⟨r, hr⟩ := h m hm
  rw [hr]
  rfl

/-- Witness for C3 at a concrete input: one new tracked mod whose info
fetch fails on a dead upstream — the run completes with an empty output
and no record carries the mod's identifier. -/
theorem c3_one_record_per_entry_witness :
    (buildCuratedList 5 [entry10] [] [] envDown).1 = [] ∧
    (∀ r ∈ (buildCuratedList 5 [entry10] [] [] envDown).1,
      r.mod_id ≠ jsString entry10.id) :=
  ⟨by decide,
    (c3_one_record_per_entry 5 [entry10] [] [] envDown (by decide) envDown_wf).2
      entry10 (by decide) (by decide) (by decide)⟩

/-- Pointwise-equal partial functions give equal filterMap results. -/
theorem filterMap_congr_mem {α β : Type} (f g : α → Option β) :
    ∀ l : List α, (∀ a ∈ l, f a = g a) → l.filterMap f = l.filterMap g := by
  intro l
  induction l with
  | nil => intro h; rfl
  | cons a t ih =>
    intro h
    rw [List.filterMap_cons, List.filterMap_cons, h a (by simp),
      ih (fun x hx => h x (by simp [hx]))]

/-- Claim C9: idempotence of the signal-based pipeline.  Assuming the
upstream echoes the requested id in fetched bodies and every first-run
info fetch succeeded, a second run that starts from the first run's
output as its cache, with the same overlay and an empty change signal,
classifies zero entries as must-fetch, and its output is a permutation
of the first run's output. -/
theorem c9_idempotent (B : Nat) (overlay : List RawEntry)
    (oldJson : List StoredRecord) (sig1 : List String) (env env2 : FetchEnv)
    (hB : 0 < B)
    (hwf : ∀ (id : String) (hr : HttpResponse ModInfo) (d : ModInfo),
      env.info id = FetchResult.resp hr → hr.body = some d → d.mod_id = id)
    (hsucc : ∀ m ∈ modsToFetchOf (prevMapOf oldJson) sig1
        (warningsMapOf (modsToProcessOf overlay)) (modsToProcessOf overlay),
      (fetchModDataFromNexus (env.info (jsString m.id))).isSome = true) :
    modsToFetchOf (prevMapOf (buildCuratedList B overlay oldJson sig1 env).1) []
        (warningsMapOf (modsToProcessOf overlay)) (modsToProcessOf overlay) = [] ∧
    ((buildCuratedList B overlay
        (buildCuratedList B overlay oldJson sig1 env).1 [] env2).1).Perm
      (buildCuratedList B overlay oldJson sig1 env).1 := by
  have key : ∀ m ∈ modsToProcessOf overlay,
      ∃ rm, entryRecord env (warningsMapOf (modsToProcessOf overlay))
          (prevMapOf oldJson) sig1 m = some rm ∧
        rm.mod_id = jsString m.id ∧ rm.files.isSome = true ∧
        rm.changelogs.isSome = true ∧
        reuseMerge (warningsMapOf (modsToProcessOf overlay) (jsString m.id)) rm = rm := by
    intro m hm
    cases hcs : classifyStep (prevMapOf oldJson) sig1
        (warningsMapOf (modsToProcessOf overlay)) m with
    | inr r =>
      obtain ⟨c, hc, hcf, hcc, hr⟩ := classifyStep_inr_inv _ _ _ _ _ hcs
      refine ⟨r, ?_, ?_, ?_, ?_, ?_⟩
      · unfold entryRecord
        rw [hcs]
      · rw [hr]
        show c.mod_id = jsString m.id
        exact prevMapOf_mod_id oldJson _ c hc
      · rw [hr]
        exact hcf
      · rw [hr]
        exact hcc
      · rw [hr]
        exact reuseMerge_self _ _ rfl rfl
    | inl x =>
      have hx := (classifyStep_inl _ _ _ _ _ hcs).symm
      subst hx
      have hmem := mem_modsToFetchOf_of _ _ _ _ _ hm hcs
      have hs := hsucc m hmem
      obtain ⟨d, hd⟩ := Option.isSome_iff_exists.mp hs
      obtain ⟨r, hr, hrid, _, hst, hwm, hfl, hch⟩ :=
        processOneId_info_some env (warningsMapOf (modsToProcessOf overlay))
          (jsString m.id) d hd
      obtain ⟨hresp, hres1, hres2⟩ := fetchModDataFromNexus_eq_some _ d hd
      refine ⟨r, ?_, ?_, ?_, ?_, ?_⟩
      · unfold entryRecord
        rw [hcs]
        show (processOne env (warningsMapOf (modsToProcessOf overlay)) m).1 = some r
        unfold processOne
        rw [hr]
      · rw [hrid]
        exact hwf _ _ _ hres1 hres2
      · rw [hfl]
        rfl
      · rw [hch]
        rfl
      · exact reuseMerge_self _ _ hst hwm
  have hperm1 : ((buildCuratedList B overlay oldJson sig1 env).1).Perm
      ((modsToProcessOf overlay).filterMap
        (entryRecord env (warningsMapOf (modsToProcessOf overlay))
          (prevMapOf oldJson) sig1)) := by
    rw [buildCuratedList_fst B overlay oldJson sig1 env hB]
    exact output_perm_entryRecord _ _ _ _ _
  have hinv : ∀ r ∈ (buildCuratedList B overlay oldJson sig1 env).1,
      ∃ m ∈ modsToProcessOf overlay,
        entryRecord env (warningsMapOf (modsToProcessOf overlay))
          (prevMapOf oldJson) sig1 m = some r := by
    intro r hr
    exact List.mem_filterMap.mp (hperm1.mem_iff.mp hr)
  have hprev2 : ∀ m ∈ modsToProcessOf overlay, ∀ rm,
      entryRecord env (warningsMapOf (modsToProcessOf overlay))
        (prevMapOf oldJson) sig1 m = some rm →
      prevMapOf (buildCuratedList B overlay oldJson sig1 env).1 (jsString m.id) =
        some rm := by
    intro m hm rm he
    obtain ⟨rm0, he0, hid, hf, hch, hst⟩ := key m hm
    rw [he] at he0
    injection he0 with he0
    subst he0
    unfold prevMapOf
    apply jsMapFind_eq_some_of_unique
    · refine List.mem_map.mpr ⟨rm, ?_, ?_⟩
      · exact hperm1.mem_iff.mpr (List.mem_filterMap.mpr ⟨m, hm, he⟩)
      · simp [hid]
    · intro p hp hpk
      obtain ⟨r2, hr2mem, rfl⟩ := List.mem_map.mp hp
      dsimp only at hpk ⊢
      obtain ⟨m2, hm2, he2⟩ := hinv r2 hr2mem
      obtain ⟨rm2, he2b, hid2, _, _, _⟩ := key m2 hm2
      rw [he2] at he2b
      injection he2b with he2b
      subst he2b
      have hideq : jsString m2.id = jsString m.id := by
        rw [← hid2, hpk]
      have hee : entryRecord env (warningsMapOf (modsToProcessOf overlay))
          (prevMapOf oldJson) sig1 m2 =
          entryRecord env (warningsMapOf (modsToProcessOf overlay))
            (prevMapOf oldJson) sig1 m :=
        entryRecord_id_congr _ _ _ _ _ _ hideq
      rw [he2, he] at hee
      injection hee with hee
  have hstep2 : ∀ m ∈ modsToProcessOf overlay, ∀ rm,
      entryRecord env (warningsMapOf (modsToProcessOf overlay))
        (prevMapOf oldJson) sig1 m = some rm →
      classifyStep (prevMapOf (buildCuratedList B overlay oldJson sig1 env).1) []
        (warningsMapOf (modsToProcessOf overlay)) m = Sum.inr rm := by
    intro m hm rm he
    obtain ⟨rm0, he0, hid, hf, hch, hst⟩ := key m hm
    rw [he] at he0
    injection he0 with he0
    subst he0
    have hp2 := hprev2 m hm rm he
    obtain ⟨fv, hfv⟩ := Option.isSome_iff_exists.mp hf
    obtain ⟨cv, hcv⟩ := Option.isSome_iff_exists.mp hch
    unfold classifyStep
    simp [hp2, hfv, hcv, hst]
  refine ⟨?_, ?_⟩
  · apply modsToFetchOf_eq_nil
    intro m hm
    obtain ⟨rm, he, _, _, _, _⟩ := key m hm
    exact ⟨rm, hstep2 m hm rm he⟩
  · have hperm2 : ((buildCuratedList B overlay
        (buildCuratedList B overlay oldJson sig1 env).1 [] env2).1).Perm
        ((modsToProcessOf overlay).filterMap
          (entryRecord env2 (warningsMapOf (modsToProcessOf overlay))
            (prevMapOf (buildCuratedList B overlay oldJson sig1 env).1) [])) := by
      rw [buildCuratedList_fst B overlay _ [] env2 hB]
      exact output_perm_entryRecord _ _ _ _ _
    have hfm : (modsToProcessOf overlay).filterMap
        (entryRecord env2 (warningsMapOf (modsToProcessOf overlay))
          (prevMapOf (buildCuratedList B overlay oldJson sig1 env).1) []) =
        (modsToProcessOf overlay).filterMap
          (entryRecord env (warningsMapOf (modsToProcessOf overlay))
            (prevMapOf oldJson) sig1) := by
      apply filterMap_congr_mem
      intro m hm
      obtain ⟨rm, he, _, _, _, _⟩ := key m hm
      rw [he]
      unfold entryRecord
      rw [hstep2 m hm rm he]
    have hback := hperm1.symm
    rw [← hfm] at hback
    exact hperm2.trans hback

/-- Witness for C9 at a concrete input: a first run over one new mod
against a healthy upstream, then a second run from its output with an
empty signal — zero must-fetch entries and the same records. -/
theorem c9_idempotent_witness :
    modsToFetchOf (prevMapOf (buildCuratedList 5 [entry10] [] [] envOk).1) []
        (warningsMapOf (modsToProcessOf [entry10])) (modsToProcessOf [entry10]) = [] ∧
    ((buildCuratedList 5 [entry10]
        (buildCuratedList 5 [entry10] [] [] envOk).1 [] envDown).1).Perm
      (buildCuratedList 5 [entry10] [] [] envOk).1 :=
  c9_idempotent 5 [entry10] [] [] envOk envDown (by decide) envOk_wf (by decide)
